import Mathlib

/-!
Verification development for the `rust-expm` factorial module
(`src/factorial/{consts.rs, gamma.rs, factorial.rs}`).

Shallow embedding of IEEE-754 binary64 (`f64`) values: a finite double is a
dyadic rational, and the non-finite values are the three extra points
`inf`, `neginf`, `nan`.  The exact arithmetic operations of `f64`
(`+`, `-`, `*`, `/`, `floor`, `<` and integer-to-double conversion) are
modelled by correctly rounded (round-to-nearest, ties-to-even) rational
arithmetic, exactly as IEEE-754 prescribes.  The transcendental library
functions (`ln`, `sin`, `exp`, `powf`), whose exact values the Rust standard
library does not specify, are abstract function parameters throughout.

Fallible operations of the source (slice indexing, `u64` subtraction) are
modelled with `Option`, so that absence of panics is a provable statement.
-/

set_option exponentiation.threshold 4200
set_option maxRecDepth 100000

/-- A `f64` value: a finite value carrying its exact rational magnitude,
or one of the special values `+inf`, `-inf`, `NaN`.  (The sign of zero is
not tracked; no modelled claim distinguishes `-0.0` from `0.0`.) -/
inductive F64 where
  | finite (v : ℚ) : F64
  | inf : F64
  | neginf : F64
  | nan : F64
deriving DecidableEq

instance : Inhabited F64 := ⟨F64.nan⟩

/-- One step of binary exponent extraction: if `2^k` still fits into the
remaining value, record `k` and divide it out. -/
def blogStep (p : ℕ × ℕ) (k : ℕ) : ℕ × ℕ :=
  if 2 ^ k ≤ p.2 then (p.1 + k, p.2 / 2 ^ k) else p

/-- Floor of the base-2 logarithm, computed by binary decomposition of the
exponent; exact for `1 ≤ n < 2^4096` (all uses in this file stay far below
that), and defined as `0` for `n = 0`. -/
def blog (n : ℕ) : ℕ :=
  ([2048, 1024, 512, 256, 128, 64, 32, 16, 8, 4, 2, 1].foldl blogStep (0, n)).1

/-- Round a positive rational to the binary64 grid with round-to-nearest,
ties-to-even, overflowing to `inf` at `2^1024` (the IEEE overflow rule).
`t = ⌊q·2^1100⌋` recovers the floor of the base-2 logarithm of `q`
exactly whenever `q ≥ 2^-1100`; below that the subnormal clamp at
exponent `-1074` makes the result (zero) correct regardless. -/
def roundPos (q : ℚ) : F64 :=
  let m : ℕ := q.num.toNat
  let dn : ℕ := q.den
  let t : ℕ := (m * 2 ^ 1100) / dn
  let E : ℤ := (blog t : ℤ) - 1100
  let g : ℤ := max (-1074) (E - 52)
  let a : ℕ := if 0 ≤ g then m else m * 2 ^ (-g).toNat
  let b : ℕ := if 0 ≤ g then dn * 2 ^ g.toNat else dn
  let d : ℕ := a / b
  let r : ℕ := a % b
  let n : ℕ := if 2 * r < b then d
    else if b < 2 * r then d + 1
    else if d % 2 = 0 then d else d + 1
  let v : ℚ :=
    if 0 ≤ g then (n : ℚ) * ((2 ^ g.toNat : ℕ) : ℚ)
    else (n : ℚ) / ((2 ^ (-g).toNat : ℕ) : ℚ)
  if ((2 ^ 1024 : ℕ) : ℚ) ≤ v then F64.inf else F64.finite v

/-- Negation of a double (exact). -/
def fneg : F64 → F64
  | F64.finite v => F64.finite (-v)
  | F64.inf => F64.neginf
  | F64.neginf => F64.inf
  | F64.nan => F64.nan

/-- Correctly rounded conversion of an exact rational to binary64. -/
def roundRat (q : ℚ) : F64 :=
  if q = 0 then F64.finite 0
  else if 0 < q then roundPos q
  else fneg (roundPos (-q))

/-- IEEE-754 `f64` addition. -/
def fadd : F64 → F64 → F64
  | F64.nan, _ => F64.nan
  | _, F64.nan => F64.nan
  | F64.inf, F64.neginf => F64.nan
  | F64.neginf, F64.inf => F64.nan
  | F64.inf, _ => F64.inf
  | _, F64.inf => F64.inf
  | F64.neginf, _ => F64.neginf
  | _, F64.neginf => F64.neginf
  | F64.finite a, F64.finite b => roundRat (a + b)

/-- IEEE-754 `f64` subtraction (`x - y = x + (-y)` exactly). -/
def fsub (x y : F64) : F64 := fadd x (fneg y)

/-- IEEE-754 `f64` multiplication. -/
def fmul : F64 → F64 → F64
  | F64.nan, _ => F64.nan
  | _, F64.nan => F64.nan
  | F64.inf, F64.inf => F64.inf
  | F64.inf, F64.neginf => F64.neginf
  | F64.neginf, F64.inf => F64.neginf
  | F64.neginf, F64.neginf => F64.inf
  | F64.inf, F64.finite b =>
      if b = 0 then F64.nan else if 0 < b then F64.inf else F64.neginf
  | F64.finite a, F64.inf =>
      if a = 0 then F64.nan else if 0 < a then F64.inf else F64.neginf
  | F64.neginf, F64.finite b =>
      if b = 0 then F64.nan else if 0 < b then F64.neginf else F64.inf
  | F64.finite a, F64.neginf =>
      if a = 0 then F64.nan else if 0 < a then F64.neginf else F64.inf
  | F64.finite a, F64.finite b => roundRat (a * b)

/-- IEEE-754 `f64` division. -/
def fdiv : F64 → F64 → F64
  | F64.nan, _ => F64.nan
  | _, F64.nan => F64.nan
  | F64.inf, F64.inf => F64.nan
  | F64.inf, F64.neginf => F64.nan
  | F64.neginf, F64.inf => F64.nan
  | F64.neginf, F64.neginf => F64.nan
  | F64.inf, F64.finite b => if 0 ≤ b then F64.inf else F64.neginf
  | F64.neginf, F64.finite b => if 0 ≤ b then F64.neginf else F64.inf
  | F64.finite _, F64.inf => F64.finite 0
  | F64.finite _, F64.neginf => F64.finite 0
  | F64.finite a, F64.finite b =>
      if b = 0 then
        (if a = 0 then F64.nan else if 0 < a then F64.inf else F64.neginf)
      else roundRat (a / b)

/-- IEEE-754 `f64` comparison `x < y` (any comparison with `NaN` is false). -/
def flt : F64 → F64 → Bool
  | F64.nan, _ => false
  | _, F64.nan => false
  | F64.neginf, F64.neginf => false
  | F64.neginf, _ => true
  | _, F64.neginf => false
  | F64.inf, F64.inf => false
  | F64.inf, _ => false
  | _, F64.inf => true
  | F64.finite a, F64.finite b => decide (a < b)

/-- `f64::floor` (exact: the floor of any finite double is a double). -/
def floorF : F64 → F64
  | F64.finite v => F64.finite ((Rat.floor v : ℤ) : ℚ)
  | F64.inf => F64.inf
  | F64.neginf => F64.neginf
  | F64.nan => F64.nan

/-- Conversion `u64 as f64` (correctly rounded; exact below `2^53`). -/
def toF64 (n : ℕ) : F64 := roundRat (n : ℚ)

/-- The literal `1.0` (exactly representable). -/
def fone : F64 := F64.finite 1

/-- The literal `0.5` (exactly representable). -/
def fhalf : F64 := F64.finite (1 / 2)

/-! ### Constants (`src/factorial/consts.rs` and `std::f64::consts`)

Rust parses a decimal floating-point literal to the nearest `f64`, which is
exactly `roundRat` of the literal's exact decimal value.  Denominators are
written as casts of natural-number powers (kernel-reducible). -/

/-- `std::f64::consts::PI`: the `f64` nearest the mathematical π (the decimal
below is π to 31 significant digits, far closer to π than a half-ulp). -/
def fPI : F64 :=
  roundRat ((31415926535897932384626433832795 : ℚ) / ((10 ^ 31 : ℕ) : ℚ))

/-- `std::f64::consts::E`: the `f64` nearest the mathematical e. -/
def fE : F64 :=
  roundRat ((27182818284590452353602874713527 : ℚ) / ((10 ^ 31 : ℕ) : ℚ))

/-- `consts::LN_PI`, the literal `1.1447298858494001741434273513530587116472948129153`. -/
def LN_PI : F64 :=
  roundRat ((11447298858494001741434273513530587116472948129153 : ℚ) /
    ((10 ^ 49 : ℕ) : ℚ))

/-- `consts::LN_2_SQRT_E_OVER_PI`, the literal
`0.6207822376352452223455184457816472122518527279025978`. -/
def LN_2_SQRT_E_OVER_PI : F64 :=
  roundRat ((6207822376352452223455184457816472122518527279025978 : ℚ) /
    ((10 ^ 52 : ℕ) : ℚ))

/-- `consts::TWO_SQRT_E_OVER_PI`, the literal
`1.8603827342052657173362492472666631120594218414085755`. -/
def TWO_SQRT_E_OVER_PI : F64 :=
  roundRat ((18603827342052657173362492472666631120594218414085755 : ℚ) /
    ((10 ^ 52 : ℕ) : ℚ))

/-- `GAMMA_R`, the literal `10.900511` (`gamma.rs`). -/
def GAMMA_R : F64 := roundRat ((10900511 : ℚ) / ((10 ^ 6 : ℕ) : ℚ))

/-- `GAMMA_DK[0]`, the literal `2.48574089138753565546e-5`. -/
def dk0 : F64 :=
  roundRat ((248574089138753565546 : ℚ) / ((10 ^ 25 : ℕ) : ℚ))

/-- `GAMMA_DK[1]`, the literal `1.05142378581721974210`. -/
def dk1 : F64 :=
  roundRat ((105142378581721974210 : ℚ) / ((10 ^ 20 : ℕ) : ℚ))

/-- `GAMMA_DK[2]`, the literal `-3.45687097222016235469`. -/
def dk2 : F64 :=
  roundRat (-((345687097222016235469 : ℚ) / ((10 ^ 20 : ℕ) : ℚ)))

/-- `GAMMA_DK[3]`, the literal `4.51227709466894823700`. -/
def dk3 : F64 :=
  roundRat ((451227709466894823700 : ℚ) / ((10 ^ 20 : ℕ) : ℚ))

/-- `GAMMA_DK[4]`, the literal `-2.98285225323576655721`. -/
def dk4 : F64 :=
  roundRat (-((298285225323576655721 : ℚ) / ((10 ^ 20 : ℕ) : ℚ)))

/-- `GAMMA_DK[5]`, the literal `1.05639711577126713077`. -/
def dk5 : F64 :=
  roundRat ((105639711577126713077 : ℚ) / ((10 ^ 20 : ℕ) : ℚ))

/-- `GAMMA_DK[6]`, the literal `-1.95428773191645869583e-1`. -/
def dk6 : F64 :=
  roundRat (-((195428773191645869583 : ℚ) / ((10 ^ 21 : ℕ) : ℚ)))

/-- `GAMMA_DK[7]`, the literal `1.70970543404441224307e-2`. -/
def dk7 : F64 :=
  roundRat ((170970543404441224307 : ℚ) / ((10 ^ 22 : ℕ) : ℚ))

/-- `GAMMA_DK[8]`, the literal `-5.71926117404305781283e-4`. -/
def dk8 : F64 :=
  roundRat (-((571926117404305781283 : ℚ) / ((10 ^ 24 : ℕ) : ℚ)))

/-- `GAMMA_DK[9]`, the literal `4.63399473359905636708e-6`. -/
def dk9 : F64 :=
  roundRat ((463399473359905636708 : ℚ) / ((10 ^ 26 : ℕ) : ℚ))

/-- `GAMMA_DK[10]`, the literal `-2.71994908488607703910e-9`. -/
def dk10 : F64 :=
  roundRat (-((271994908488607703910 : ℚ) / ((10 ^ 29 : ℕ) : ℚ)))

/-- The coefficient slice `GAMMA_DK` of `gamma.rs`. -/
def GAMMA_DK : List F64 := [dk0, dk1, dk2, dk3, dk4, dk5, dk6, dk7, dk8, dk9, dk10]

/-! ### The gamma engine (`src/factorial/gamma.rs`) -/

/-- The Lanczos series accumulated in the `x < 0.5` branch of both `gamma`
and `ln_gamma`: Rust's
`GAMMA_DK.iter().enumerate().skip(1).fold(GAMMA_DK[0], |s, t| s + t.1 / (t.0 as f64 - x))`. -/
def lanczosLower (x : F64) : F64 :=
  (GAMMA_DK.enum.drop 1).foldl
    (fun s t => fadd s (fdiv t.2 (fsub (toF64 t.1) x))) GAMMA_DK.headI

/-- The Lanczos series accumulated in the `x ≥ 0.5` branch of both `gamma`
and `ln_gamma`: Rust's
`GAMMA_DK.iter().enumerate().skip(1).fold(GAMMA_DK[0], |s, t| s + t.1 / (x + t.0 as f64 - 1.0))`. -/
def lanczosUpper (x : F64) : F64 :=
  (GAMMA_DK.enum.drop 1).foldl
    (fun s t => fadd s (fdiv t.2 (fsub (fadd x (toF64 t.1)) fone))) GAMMA_DK.headI

/-- `gamma.rs::ln_gamma`, parameterised by the (unspecified) `f64::ln` and
`f64::sin` library functions.  A faithful translation of the two branches,
with the source's left-to-right association of `-` and `+`. -/
def ln_gamma (ln sin : F64 → F64) (x : F64) : F64 :=
  if flt x fhalf then
    fsub
      (fsub (fsub (fsub LN_PI (ln (sin (fmul fPI x)))) (ln (lanczosLower x)))
        LN_2_SQRT_E_OVER_PI)
      (fmul (fsub fhalf x) (ln (fdiv (fadd (fsub fhalf x) GAMMA_R) fE)))
  else
    fadd (fadd (ln (lanczosUpper x)) LN_2_SQRT_E_OVER_PI)
      (fmul (fsub x fhalf) (ln (fdiv (fadd (fsub x fhalf) GAMMA_R) fE)))

/-- `gamma.rs::gamma`, parameterised by the (unspecified) `f64::sin` and
`f64::powf` library functions.  A faithful, non-recursive translation of
the two branches with the source's association of `*`. -/
def gamma (sin : F64 → F64) (powf : F64 → F64 → F64) (x : F64) : F64 :=
  if flt x fhalf then
    fdiv fPI
      (fmul (fmul (fmul (sin (fmul fPI x)) (lanczosLower x)) TWO_SQRT_E_OVER_PI)
        (powf (fdiv (fadd (fsub fhalf x) GAMMA_R) fE) (fsub fhalf x)))
  else
    fmul (fmul (lanczosUpper x) TWO_SQRT_E_OVER_PI)
      (powf (fdiv (fadd (fsub x fhalf) GAMMA_R) fE) (fsub x fhalf))

/-- The lower Lanczos series written exactly as the specification states it:
`s = DK[0] + Σ_{i=1..10} DK[i] / (i − x)`, accumulated left to right. -/
def lanczosLowerSpec (x : F64) : F64 :=
  fadd (fadd (fadd (fadd (fadd (fadd (fadd (fadd (fadd (fadd dk0
    (fdiv dk1 (fsub (toF64 1) x)))
    (fdiv dk2 (fsub (toF64 2) x)))
    (fdiv dk3 (fsub (toF64 3) x)))
    (fdiv dk4 (fsub (toF64 4) x)))
    (fdiv dk5 (fsub (toF64 5) x)))
    (fdiv dk6 (fsub (toF64 6) x)))
    (fdiv dk7 (fsub (toF64 7) x)))
    (fdiv dk8 (fsub (toF64 8) x)))
    (fdiv dk9 (fsub (toF64 9) x)))
    (fdiv dk10 (fsub (toF64 10) x))

/-- The upper Lanczos series written exactly as the specification states it:
`s = DK[0] + Σ_{i=1..10} DK[i] / (x + i − 1)`, accumulated left to right. -/
def lanczosUpperSpec (x : F64) : F64 :=
  fadd (fadd (fadd (fadd (fadd (fadd (fadd (fadd (fadd (fadd dk0
    (fdiv dk1 (fsub (fadd x (toF64 1)) fone)))
    (fdiv dk2 (fsub (fadd x (toF64 2)) fone)))
    (fdiv dk3 (fsub (fadd x (toF64 3)) fone)))
    (fdiv dk4 (fsub (fadd x (toF64 4)) fone)))
    (fdiv dk5 (fsub (fadd x (toF64 5)) fone)))
    (fdiv dk6 (fsub (fadd x (toF64 6)) fone)))
    (fdiv dk7 (fsub (fadd x (toF64 7)) fone)))
    (fdiv dk8 (fsub (fadd x (toF64 8)) fone)))
    (fdiv dk9 (fsub (fadd x (toF64 9)) fone)))
    (fdiv dk10 (fsub (fadd x (toF64 10)) fone))

/-! ### The factorial layer (`src/factorial/factorial.rs`)

The `Once`-guarded cache initialisation
`(1..CACHE_SIZE).fold(FCACHE[0], |acc, i| { let fac = acc * i as f64; FCACHE[i] = fac; fac })`
threads the accumulator, so after initialisation `FCACHE[0] = 1.0` and
`FCACHE[i] = FCACHE[i-1] * (i as f64)` (one correctly rounded `f64`
multiplication per entry).  `fcacheVal` is that recurrence; `FCACHE` is the
resulting 171-entry table.  Indexing is modelled with `List.get?` so that
an out-of-bounds access (a Rust panic) is visible as `none`. -/

/-- `MAX_ARG`: the largest argument whose factorial fits in an `f64`. -/
def MAX_ARG : ℕ := 170

/-- `CACHE_SIZE = 171`. -/
def CACHE_SIZE : ℕ := 171

/-- Value of entry `i` of the factorial cache after initialisation. -/
def fcacheVal : ℕ → F64
  | 0 => F64.finite 1
  | i + 1 => fmul (fcacheVal i) (toF64 (i + 1))

/-- The fully initialised factorial cache `FCACHE`. -/
def FCACHE : List F64 := (List.range CACHE_SIZE).map fcacheVal

/-- `factorial.rs::factorial`.  `none` would mean an out-of-bounds cache
access (a panic in Rust). -/
def factorial (x : ℕ) : Option F64 :=
  if x > MAX_ARG then some F64.inf else FCACHE.get? x

/-- `factorial.rs::ln_factorial`, parameterised by `f64::ln` and (through
`ln_gamma`) `f64::sin`.  The `x > MAX_ARG` branch is Rust's
`gamma::ln_gamma(x as f64 + 1.0)`. -/
def ln_factorial (ln sin : F64 → F64) (x : ℕ) : Option F64 :=
  if x ≤ 1 then some (F64.finite 0)
  else if x > MAX_ARG then some (ln_gamma ln sin (fadd (toF64 x) fone))
  else (FCACHE.get? x).map ln

/-- Rust `u64` subtraction `n - k`: panics (in debug) / wraps on underflow,
so it is modelled as fallible; it is only well-defined for `k ≤ n`. -/
def checkedSub (n k : ℕ) : Option ℕ :=
  if k ≤ n then some (n - k) else none

/-- `factorial.rs::binomial`:
`(0.5 + (ln_factorial(n) - ln_factorial(k) - ln_factorial(n - k)).exp()).floor()`
behind the `k > n` guard. -/
def binomial (exp ln sin : F64 → F64) (n k : ℕ) : Option F64 :=
  if k > n then some (F64.finite 0)
  else
    (checkedSub n k).bind fun d =>
      (ln_factorial ln sin n).bind fun a =>
        (ln_factorial ln sin k).bind fun b =>
          (ln_factorial ln sin d).map fun c =>
            floorF (fadd fhalf (exp (fsub (fsub a b) c)))

/-- `factorial.rs::ln_binomial`:
`ln_factorial(n) - ln_factorial(k) - ln_factorial(n - k)` behind the
`k > n` guard. -/
def ln_binomial (ln sin : F64 → F64) (n k : ℕ) : Option F64 :=
  if k > n then some F64.neginf
  else
    (checkedSub n k).bind fun d =>
      (ln_factorial ln sin n).bind fun a =>
        (ln_factorial ln sin k).bind fun b =>
          (ln_factorial ln sin d).map fun c =>
            fsub (fsub a b) c

/-- A transcendental stub used only to instantiate the abstract library
functions in witnesses; the claims hold for every instantiation. -/
def stubUn : F64 → F64 := fun _ => F64.nan

/-- A two-argument transcendental stub for `powf` in witnesses. -/
def stubBin : F64 → F64 → F64 := fun _ _ => F64.nan

/-- A stub for `exp` whose value at `0.0` is `1.0` (as `f64::exp` has,
by IEEE-754 `exp(±0) = 1` exactly). -/
def stubExpOne : F64 → F64 := fun _ => F64.finite 1

/-! ### Sanity checks of the embedding -/

theorem roundRat_half : roundRat (1 / 2) = fhalf := by with_unfolding_all rfl

theorem roundRat_one : roundRat 1 = fone := by with_unfolding_all rfl

theorem roundRat_tenth :
    roundRat (1 / 10) = F64.finite (3602879701896397 / 36028797018963968) := by
  with_unfolding_all rfl

theorem roundRat_ulp_tie_even :
    fadd fone (F64.finite (1 / 9007199254740992)) = fone := by
  with_unfolding_all rfl

theorem roundRat_ulp_up :
    fadd fone (F64.finite (3 / 18014398509481984)) =
      F64.finite (4503599627370497 / 4503599627370496) := by
  with_unfolding_all rfl

theorem lanczosLower_eq_spec (x : F64) : lanczosLower x = lanczosLowerSpec x := rfl

theorem lanczosUpper_eq_spec (x : F64) : lanczosUpper x = lanczosUpperSpec x := rfl

theorem factorial_five : factorial 5 = some (F64.finite 120) := by
  with_unfolding_all rfl

/-! ### Helper lemmas -/

theorem fadd_nan_right (x : F64) : fadd x F64.nan = F64.nan := by
  cases x <;> rfl

theorem fmul_nan_left (y : F64) : fmul F64.nan y = F64.nan := by
  cases y <;> rfl

theorem roundRat_zero : roundRat 0 = F64.finite 0 := by
  simp [roundRat]

theorem FCACHE_get {n : ℕ} (h : n ≤ MAX_ARG) : FCACHE.get? n = some (fcacheVal n) := by
  have h' : n < CACHE_SIZE := by
    simp only [MAX_ARG] at h
    simp only [CACHE_SIZE]
    omega
  rw [FCACHE, List.get?_map, List.get?_range h']
  rfl

theorem ln_factorial_le_one (ln sin : F64 → F64) {n : ℕ} (h : n ≤ 1) :
    ln_factorial ln sin n = some (F64.finite 0) := by
  simp [ln_factorial, h]

theorem ln_factorial_mid (ln sin : F64 → F64) {n : ℕ} (h1 : 1 < n) (h2 : n ≤ MAX_ARG) :
    ln_factorial ln sin n = some (ln (fcacheVal n)) := by
  have hn : ¬ n ≤ 1 := by omega
  have hm : ¬ n > MAX_ARG := not_lt.mpr h2
  rw [ln_factorial, if_neg hn, if_neg hm, FCACHE_get h2]
  rfl

theorem ln_factorial_hi (ln sin : F64 → F64) {n : ℕ} (h : MAX_ARG < n) :
    ln_factorial ln sin n = some (ln_gamma ln sin (fadd (toF64 n) fone)) := by
  have hn : ¬ n ≤ 1 := by
    simp only [MAX_ARG] at h
    omega
  rw [ln_factorial, if_neg hn, if_pos h]

theorem ln_factorial_total (ln sin : F64 → F64) (n : ℕ) :
    ∃ a, ln_factorial ln sin n = some a := by
  rcases le_or_lt n 1 with h | h1
  · exact ⟨_, ln_factorial_le_one ln sin h⟩
  · rcases le_or_lt n MAX_ARG with h2 | h2
    · exact ⟨_, ln_factorial_mid ln sin h1 h2⟩
    · exact ⟨_, ln_factorial_hi ln sin h2⟩

theorem binomial_run (exp ln sin : F64 → F64) {n k : ℕ} (h : k ≤ n) :
    ∃ a b c, ln_factorial ln sin n = some a ∧ ln_factorial ln sin k = some b ∧
      ln_factorial ln sin (n - k) = some c ∧
      binomial exp ln sin n k = some (floorF (fadd fhalf (exp (fsub (fsub a b) c)))) ∧
      ln_binomial ln sin n k = some (fsub (fsub a b) c) := by
  obtain ⟨a, ha⟩ := ln_factorial_total ln sin n
  obtain ⟨b, hb⟩ := ln_factorial_total ln sin k
  obtain ⟨c, hc⟩ := ln_factorial_total ln sin (n - k)
  refine ⟨a, b, c, ha, hb, hc, ?_, ?_⟩ <;>
    simp [binomial, ln_binomial, Nat.not_lt.mpr h, checkedSub, h, ha, hb, hc]

/-! ### Claim theorems -/

/-- C1: `gamma(x)` follows a two-way branch on `x < 0.5`.  Whenever the
`f64` comparison `x < 0.5` holds, it returns the reflection-formula form
`π / (sin(πx) · s · C · ((0.5 − x + R)/e)^(0.5−x))` with
`s = DK[0] + Σ_{i=1..10} DK[i]/(i − x)` accumulated left to right; otherwise
it returns `s · C · ((x − 0.5 + R)/e)^(x−0.5)` with
`s = DK[0] + Σ_{i=1..10} DK[i]/(x + i − 1)`, where `C` is the constant
`TWO_SQRT_E_OVER_PI` (the `f64` of `2·sqrt(e/π)`) and `R = GAMMA_R =
10.900511`.  Both right-hand sides are gamma-free closed forms, so `gamma`
never calls itself recursively (its defining equation above is also
structurally non-recursive). -/
theorem claim_C1_gamma_branch_structure (sin : F64 → F64)
    (powf : F64 → F64 → F64) (x : F64) :
    (flt x fhalf = true →
      gamma sin powf x =
        fdiv fPI
          (fmul (fmul (fmul (sin (fmul fPI x)) (lanczosLowerSpec x)) TWO_SQRT_E_OVER_PI)
            (powf (fdiv (fadd (fsub fhalf x) GAMMA_R) fE) (fsub fhalf x)))) ∧
    (flt x fhalf = false →
      gamma sin powf x =
        fmul (fmul (lanczosUpperSpec x) TWO_SQRT_E_OVER_PI)
          (powf (fdiv (fadd (fsub x fhalf) GAMMA_R) fE) (fsub x fhalf))) := by
  constructor <;> intro h <;> simp only [gamma, h] <;> rfl

/-- Witness for C1 at the concrete inputs `x = 0.0` (which takes the
reflection branch, `flt 0.0 0.5 = true`) and `x = 1.0` (which takes the
direct branch), with stub library functions. -/
theorem claim_C1_witness :
    gamma stubUn stubBin (F64.finite 0) =
      fdiv fPI
        (fmul (fmul (fmul (stubUn (fmul fPI (F64.finite 0)))
            (lanczosLowerSpec (F64.finite 0))) TWO_SQRT_E_OVER_PI)
          (stubBin (fdiv (fadd (fsub fhalf (F64.finite 0)) GAMMA_R) fE)
            (fsub fhalf (F64.finite 0)))) ∧
    gamma stubUn stubBin (F64.finite 1) =
      fmul (fmul (lanczosUpperSpec (F64.finite 1)) TWO_SQRT_E_OVER_PI)
        (stubBin (fdiv (fadd (fsub (F64.finite 1) fhalf) GAMMA_R) fE)
          (fsub (F64.finite 1) fhalf)) :=
  ⟨(claim_C1_gamma_branch_structure stubUn stubBin (F64.finite 0)).1
      (by with_unfolding_all decide),
   (claim_C1_gamma_branch_structure stubUn stubBin (F64.finite 1)).2
      (by with_unfolding_all decide)⟩

/-- C2: `factorial(0) = 1.0`; for `1 ≤ n ≤ 170`, `factorial(n)` is exactly
the correctly rounded `f64` product `factorial(n-1) * (n as f64)` (the
iterative cache product, `fmul` being IEEE-754 round-to-nearest-even
multiplication); and for `n > 170`, `factorial(n) = +∞`. -/
theorem claim_C2_factorial_recurrence (n : ℕ) :
    factorial 0 = some (F64.finite 1) ∧
    (1 ≤ n → n ≤ 170 → factorial n =
      (factorial (n - 1)).map (fun v => fmul v (toF64 n))) ∧
    (170 < n → factorial n = some F64.inf) := by
  refine ⟨?_, ?_, ?_⟩
  · rw [factorial, if_neg (by decide), FCACHE_get (by decide)]
    rfl
  · intro h1 h2
    obtain ⟨m, rfl⟩ : ∃ m, n = m + 1 := ⟨n - 1, by omega⟩
    have hm : ¬ m + 1 > MAX_ARG := by
      simp only [MAX_ARG]
      omega
    have hm1 : ¬ m + 1 - 1 > MAX_ARG := by
      simp only [MAX_ARG]
      omega
    rw [factorial, if_neg hm, factorial, if_neg hm1,
      FCACHE_get (not_lt.mp hm), FCACHE_get (not_lt.mp hm1)]
    simp only [Nat.add_sub_cancel, Option.map_some]
    rfl
  · intro h
    rw [factorial, if_pos (by simp only [MAX_ARG]; omega)]

/-- Witness for C2 at `n = 5` (cache recurrence) and `n = 171` (overflow
sentinel). -/
theorem claim_C2_witness :
    factorial 5 = (factorial 4).map (fun v => fmul v (toF64 5)) ∧
    factorial 171 = some F64.inf :=
  ⟨(claim_C2_factorial_recurrence 5).2.1 (by decide) (by decide),
   (claim_C2_factorial_recurrence 171).2.2 (by decide)⟩

/-- C3: `ln_factorial` is piecewise: it returns exactly `0.0` for
`n ∈ {0,1}` (the source guard is `n ≤ 1`); for `1 < n ≤ 170` it returns
`ln(cache[n])` (the abstract `f64::ln` applied to the cached factorial);
and for `n > 170` it delegates to `ln_gamma` at the `f64` value of `n + 1`
(Rust's `(n as f64) + 1.0`). -/
theorem claim_C3_ln_factorial_piecewise (ln sin : F64 → F64) (n : ℕ) :
    (n ≤ 1 → ln_factorial ln sin n = some (F64.finite 0)) ∧
    (1 < n → n ≤ 170 → ln_factorial ln sin n = some (ln (fcacheVal n))) ∧
    (170 < n → ln_factorial ln sin n =
      some (ln_gamma ln sin (fadd (toF64 n) fone))) :=
  ⟨fun h => ln_factorial_le_one ln sin h,
   fun h1 h2 => ln_factorial_mid ln sin h1 h2,
   fun h => ln_factorial_hi ln sin h⟩

/-- Witness for C3 at `n = 1`, `n = 5` and `n = 200`, with stub library
functions. -/
theorem claim_C3_witness :
    ln_factorial stubUn stubUn 1 = some (F64.finite 0) ∧
    ln_factorial stubUn stubUn 5 = some (stubUn (fcacheVal 5)) ∧
    ln_factorial stubUn stubUn 200 =
      some (ln_gamma stubUn stubUn (fadd (toF64 200) fone)) :=
  ⟨(claim_C3_ln_factorial_piecewise stubUn stubUn 1).1 (by decide),
   (claim_C3_ln_factorial_piecewise stubUn stubUn 5).2.1 (by decide) (by decide),
   (claim_C3_ln_factorial_piecewise stubUn stubUn 200).2.2 (by decide)⟩

/-- C5: for `k > n`, `binomial(n,k)` returns exactly `0.0` and
`ln_binomial(n,k)` returns exactly `-∞`.  The statement is quantified over
every valuation of the abstract library functions (`exp`, `ln`, `sin`), so
the result is determined by the guard alone: neither the factorial cache
nor the gamma engine can influence it. -/
theorem claim_C5_rejection_guard (exp ln sin : F64 → F64) (n k : ℕ)
    (h : n < k) :
    binomial exp ln sin n k = some (F64.finite 0) ∧
    ln_binomial ln sin n k = some F64.neginf := by
  constructor <;> simp [binomial, ln_binomial, h]

/-- Witness for C5 at `(n, k) = (0, 1)` with stub library functions. -/
theorem claim_C5_witness :
    binomial stubExpOne stubUn stubUn 0 1 = some (F64.finite 0) ∧
    ln_binomial stubUn stubUn 0 1 = some F64.neginf :=
  claim_C5_rejection_guard stubExpOne stubUn stubUn 0 1 (by decide)

/-- C6: for `k ≤ n`, `binomial(n,k)` equals
`floor(0.5 + exp(ln_factorial(n) − ln_factorial(k) − ln_factorial(n−k)))`
(the log-domain value is exponentiated, then rounded to nearest via the
`floor(0.5 + ·)` convention, not truncated), and `ln_binomial(n,k)` returns
`ln_factorial(n) − ln_factorial(k) − ln_factorial(n−k)` directly with no
rounding, where `a`, `b`, `c` below are the three `ln_factorial` values. -/
theorem claim_C6_log_domain_formula (exp ln sin : F64 → F64) (n k : ℕ)
    (h : k ≤ n) :
    ∃ a b c, ln_factorial ln sin n = some a ∧ ln_factorial ln sin k = some b ∧
      ln_factorial ln sin (n - k) = some c ∧
      binomial exp ln sin n k =
        some (floorF (fadd fhalf (exp (fsub (fsub a b) c)))) ∧
      ln_binomial ln sin n k = some (fsub (fsub a b) c) :=
  binomial_run exp ln sin h

/-- Witness for C6 at `(n, k) = (5, 2)` with stub library functions. -/
theorem claim_C6_witness :
    ∃ a b c, ln_factorial stubUn stubUn 5 = some a ∧
      ln_factorial stubUn stubUn 2 = some b ∧
      ln_factorial stubUn stubUn 3 = some c ∧
      binomial stubExpOne stubUn stubUn 5 2 =
        some (floorF (fadd fhalf (stubExpOne (fsub (fsub a b) c)))) ∧
      ln_binomial stubUn stubUn 5 2 = some (fsub (fsub a b) c) :=
  claim_C6_log_domain_formula stubExpOne stubUn stubUn 5 2 (by decide)

/-- C8: `gamma(NaN) = NaN` and `ln_gamma(NaN) = NaN`, for every valuation
of the abstract library functions: the NaN input takes the `x ≥ 0.5`
branch (an IEEE comparison with NaN is false), poisons the Lanczos
accumulator through the exact arithmetic, and propagates to the result;
no error is raised (the functions are total) and no other sentinel value
is produced. -/
theorem claim_C8_nan_propagation (ln sin : F64 → F64)
    (powf : F64 → F64 → F64) :
    gamma sin powf F64.nan = F64.nan ∧ ln_gamma ln sin F64.nan = F64.nan := by
  constructor
  · have h0 : gamma sin powf F64.nan =
        fmul (fmul (lanczosUpper F64.nan) TWO_SQRT_E_OVER_PI)
          (powf (fdiv (fadd (fsub F64.nan fhalf) GAMMA_R) fE)
            (fsub F64.nan fhalf)) := rfl
    have h1 : fmul (lanczosUpper F64.nan) TWO_SQRT_E_OVER_PI = F64.nan := by
      with_unfolding_all rfl
    rw [h0, h1, fmul_nan_left]
  · have h0 : ln_gamma ln sin F64.nan =
        fadd (fadd (ln (lanczosUpper F64.nan)) LN_2_SQRT_E_OVER_PI)
          (fmul (fsub F64.nan fhalf)
            (ln (fdiv (fadd (fsub F64.nan fhalf) GAMMA_R) fE))) := rfl
    have h1 : fsub F64.nan fhalf = F64.nan := rfl
    rw [h0, h1, fmul_nan_left, fadd_nan_right]

/-- C9: totality without panics.  `factorial`, `ln_factorial`, `binomial`
and `ln_binomial` return a value (`isSome`) for every input and every
valuation of the abstract library functions: the cache index is always in
bounds because the `> 170` branch is taken first, and the `u64`
subtraction `n - k` is only reached under `k ≤ n`.  (`gamma` and
`ln_gamma` are total by construction: they are functions `F64 → F64`
involving no fallible operation.) -/
theorem claim_C9_no_panics (exp ln sin : F64 → F64) (x n k : ℕ) :
    (factorial x).isSome = true ∧
    (ln_factorial ln sin x).isSome = true ∧
    (binomial exp ln sin n k).isSome = true ∧
    (ln_binomial ln sin n k).isSome = true := by
  refine ⟨?_, ?_, ?_, ?_⟩
  · rcases le_or_lt x MAX_ARG with h | h
    · rw [factorial, if_neg (not_lt.mpr h), FCACHE_get h]
      rfl
    · rw [factorial, if_pos h]
      rfl
  · obtain ⟨a, ha⟩ := ln_factorial_total ln sin x
    rw [ha]
    rfl
  · rcases le_or_lt k n with h | h
    · obtain ⟨a, b, c, _, _, _, hb, _⟩ := binomial_run exp ln sin h
      rw [hb]
      rfl
    · rw [binomial, if_pos h]
      rfl
  · rcases le_or_lt k n with h | h
    · obtain ⟨a, b, c, _, _, _, _, hb⟩ := binomial_run exp ln sin h
      rw [hb]
      rfl
    · rw [ln_binomial, if_pos h]
      rfl

/-- C10: exact identity edges of the binomial functions, for every `n`
(including `n > 170`, where `factorial n` itself is `+∞`): `binomial(n,0)`
and `binomial(n,n)` are exactly `1.0`, and `ln_binomial(n,0)` and
`ln_binomial(n,n)` are exactly `0.0`.  The hypotheses record the two facts
the real `f64` library guarantees but the abstract model must assume:
`ln_factorial(n)` evaluates to some finite double `v` (hence exactly
representable, `roundRat v = v`), and `exp(0) = 1` exactly.  Under these,
`ln_factorial` of the zero argument is exactly `0.0`, the two equal
`ln_factorial(n)` terms cancel exactly (`v - v` rounds to `0`), subtracting
`0.0` is exact, and `floor(0.5 + exp 0) = floor(1.5) = 1.0`. -/
theorem claim_C10_binomial_edges (exp ln sin : F64 → F64) (n : ℕ) (v : ℚ)
    (hv : ln_factorial ln sin n = some (F64.finite v))
    (hrepr : roundRat v = F64.finite v)
    (hexp : exp (F64.finite 0) = F64.finite 1) :
    binomial exp ln sin n 0 = some (F64.finite 1) ∧
    binomial exp ln sin n n = some (F64.finite 1) ∧
    ln_binomial ln sin n 0 = some (F64.finite 0) ∧
    ln_binomial ln sin n n = some (F64.finite 0) := by
  have h0 : ln_factorial ln sin 0 = some (F64.finite 0) :=
    ln_factorial_le_one ln sin (by decide)
  have hs0 : fsub (F64.finite v) (F64.finite 0) = F64.finite v := by
    have hq : v + -(0 : ℚ) = v := by ring
    simp [fsub, fneg, fadd, hq, hrepr]
  have hsv : fsub (F64.finite v) (F64.finite v) = F64.finite 0 := by
    have hq : v + -v = 0 := by ring
    simp [fsub, fneg, fadd, hq, roundRat_zero]
  have hs00 : fsub (F64.finite 0) (F64.finite 0) = F64.finite 0 := by
    have hq : (0 : ℚ) + -(0 : ℚ) = 0 := by ring
    simp [fsub, fneg, fadd, hq, roundRat_zero]
  have h32 : fadd fhalf (F64.finite 1) = F64.finite (3 / 2) := by
    with_unfolding_all rfl
  have hfl : floorF (F64.finite (3 / 2)) = F64.finite 1 := by
    with_unfolding_all rfl
  refine ⟨?_, ?_, ?_, ?_⟩
  · simp [binomial, checkedSub, Nat.sub_zero, Nat.zero_le, hv, h0,
      hs0, hsv, hexp, h32, hfl]
  · simp [binomial, checkedSub, Nat.sub_self, hv, h0,
      hsv, hs00, hexp, h32, hfl]
  · simp [ln_binomial, checkedSub, Nat.sub_zero, Nat.zero_le, hv, h0,
      hs0, hsv]
  · simp [ln_binomial, checkedSub, Nat.sub_self, hv, h0, hsv, hs00]

/-- Witness for C10 at `n = 1` (where `ln_factorial` is exactly `0.0`),
with stub library functions whose `exp 0` is `1.0`. -/
theorem claim_C10_witness :
    binomial stubExpOne stubUn stubUn 1 0 = some (F64.finite 1) ∧
    binomial stubExpOne stubUn stubUn 1 1 = some (F64.finite 1) ∧
    ln_binomial stubUn stubUn 1 0 = some (F64.finite 0) ∧
    ln_binomial stubUn stubUn 1 1 = some (F64.finite 0) :=
  claim_C10_binomial_edges stubExpOne stubUn stubUn 1 0
    (by simp [ln_factorial]) roundRat_zero rfl

theorem factorial_170_exact :
    factorial 170 = some (F64.finite (7257415615307994045399635715589591467896184117242257803405544211755693246215271577444614997868077640013184176271985826801597743247247979077995336619429980685793285768053360886112149825437081356365699043287884614002788490694530469661753007801896962563721104619242357348735986883814984039817295623520648167424 : ℚ)) := by
  with_unfolding_all rfl
